import Mathlib

/-!
Kelas_Alpro, Tugas10-Algoritmapencarian: linear and binary search

A shallow embedding of `linear_search.c` and `binary_search.c`.

* `size_t` is a natural number below `2 ^ 64`; every `size_t` operation of the
  source is written with its reduction modulo `2 ^ 64`.
* `int` values are integers; an `int` is only ever compared, never added, by
  the two kernels.
* A C array is a list. Reading `b[i]` with `i` outside the list is undefined
  behaviour in C; `linearSearchLoop` and `binarySearchLoop` stop the run there
  with `Outcome.fault i`, which records that the stray read happened.
* The compiled loop has no bounds check: it goes on with the word the address
  holds. `binarySearchMem` is the same loop with the memory outside the array
  as a parameter; with memory that traps everywhere it is `binarySearchLoop`.
* The `while` loop of `binarySearch` need not terminate, so both loops take a
  fuel argument and return `none` when it runs out.
-/

namespace KelasAlpro

/-! ## Machine integers -/

/-- Number of values of the unsigned 64-bit type `size_t`. -/
def SIZE_T_MOD : Nat := 2 ^ 64

/-- Conversion of an `int` to `size_t`: reduction modulo `2 ^ 64`. -/
def toSizeT (z : Int) : Nat := (z % (SIZE_T_MOD : Int)).toNat

/-- Conversion of a `size_t` to `int` (32 bits, two's complement). -/
def toInt (n : Nat) : Int :=
  if n % 2 ^ 32 < 2 ^ 31 then ((n % 2 ^ 32 : Nat) : Int) else ((n % 2 ^ 32 : Nat) : Int) - 2 ^ 32

/-- Reading of a `size_t` as a `long` (64 bits, two's complement), as `%ld` does. -/
def toLong (n : Nat) : Int :=
  if n % SIZE_T_MOD < 2 ^ 63 then ((n % SIZE_T_MOD : Nat) : Int)
  else ((n % SIZE_T_MOD : Nat) : Int) - 2 ^ 64

/-- The macro `SIZE` of both files: `#define SIZE 100`. -/
def SIZE : Nat := 100

/-- The value of `return -1` in a function returning `size_t`. -/
def NOT_FOUND : Nat := toSizeT (-1)

/-! ## Runs of a kernel -/

/-- How a kernel run ends: with a returned `size_t`, or with a read of the
array at an index outside it. -/
inductive Outcome where
  | ret (v : Nat)
  | fault (i : Nat)
  deriving DecidableEq

/-- A finished run: the array indices read, one per loop iteration and in
order, and how the run ended. -/
structure Run where
  reads : List Nat
  out : Outcome
  deriving DecidableEq

/-- The run that first reads index `i` and then continues as `r`. -/
def Run.after (i : Nat) (r : Run) : Run := ⟨i :: r.reads, r.out⟩

/-! ## `linear_search.c` -/

/-- The `for` loop of `linearSearch`, entered at the test `n < SIZE`.
The bound is the macro `SIZE`, not the parameter `size`. -/
def linearSearchLoop (array : List Int) (key : Int) : Nat → Nat → Option Run
  | 0, _ => none
  | fuel + 1, n =>
    if n < SIZE then
      match array[n]? with
      | none => some ⟨[n], .fault n⟩
      | some v =>
        if v = key then some ⟨[n], .ret n⟩
        else (linearSearchLoop array key fuel ((n + 1) % SIZE_T_MOD)).map (Run.after n)
    else some ⟨[], .ret NOT_FOUND⟩

/-- The function `linearSearch(array, key, size)`. The parameter `size` is not
used by the body. -/
def linearSearch (array : List Int) (key : Int) (_size : Nat) (fuel : Nat) : Option Run :=
  linearSearchLoop array key fuel 0

/-! ## `binary_search.c` -/

/-- The `while` loop of `binarySearch`, entered at the test `low <= high`.
Each iteration reads only `b[middle]`. -/
def binarySearchLoop (b : List Int) (searchKey : Int) : Nat → Nat → Nat → Option Run
  | 0, _, _ => none
  | fuel + 1, low, high =>
    if low ≤ high then
      match b[((low + high) % SIZE_T_MOD) / 2]? with
      | none => some ⟨[((low + high) % SIZE_T_MOD) / 2], .fault (((low + high) % SIZE_T_MOD) / 2)⟩
      | some v =>
        if searchKey = v then
          some ⟨[((low + high) % SIZE_T_MOD) / 2], .ret (((low + high) % SIZE_T_MOD) / 2)⟩
        else if searchKey < v then
          (binarySearchLoop b searchKey fuel low
            ((((low + high) % SIZE_T_MOD) / 2 + SIZE_T_MOD - 1) % SIZE_T_MOD)).map
            (Run.after (((low + high) % SIZE_T_MOD) / 2))
        else
          (binarySearchLoop b searchKey fuel
            ((((low + high) % SIZE_T_MOD) / 2 + 1) % SIZE_T_MOD) high).map
            (Run.after (((low + high) % SIZE_T_MOD) / 2))
    else some ⟨[], .ret NOT_FOUND⟩

/-- The function `binarySearch(b, searchKey, low, high)`. -/
def binarySearch (b : List Int) (searchKey : Int) (low high : Nat) (fuel : Nat) : Option Run :=
  binarySearchLoop b searchKey fuel low high

/-! ## The drivers -/

/-- What the C program leaves indeterminate: the initial contents of the local
array `a`, the value `printf("a = %d\n")` prints for its missing argument at
each iteration, and the initial value of `searchKey`. -/
structure Env where
  stack : Nat → Int
  vararg : Nat → Int
  keyInit : Int

/-- The local array `int a[SIZE]` before the construction loop. -/
def initialArray (env : Env) : List Int := (List.range SIZE).map env.stack

/-- One iteration of the construction loop: `a[x] = 2 * x; printf("a = %d\n");`.
The product is computed in `size_t` and converted to `int`. -/
def buildStep (env : Env) (st : List Int × String) (x : Nat) : List Int × String :=
  (st.1.set x (toInt ((2 * x) % SIZE_T_MOD)),
   st.2 ++ "a = " ++ toString (env.vararg x) ++ "\n")

/-- The construction loop `for (size_t x = 0; x < SIZE; ++x)` of both drivers:
the array and the text written to standard output. -/
def buildDataset (env : Env) : List Int × String :=
  (List.range SIZE).foldl (buildStep env) (initialArray env, "")

/-- The variable `int LOW = 0;` of the binary driver. -/
def LOW : Int := 0

/-- The variable `int HIGH = 100;` of the binary driver. -/
def HIGH : Int := 100

/-- How a program run ends: `main` returns (status 0), or the run has
undefined behaviour because the array was read at index `i` outside it. -/
inductive Exit where
  | status (n : Nat)
  | undefined (i : Nat)
  deriving DecidableEq

/-- The observable result of a program run. -/
structure ProgramResult where
  stdout : String
  stderr : String
  exit : Exit
  deriving DecidableEq

/-- The statement `scanf("%d", &searchKey)`: `input` is the integer `scanf`
converted, or `none` when the conversion failed, in which case `searchKey`
keeps its indeterminate initial value. The return value of `scanf` is not
inspected. -/
def scanKey (env : Env) (input : Option Int) : Int :=
  match input with
  | some k => k
  | none => env.keyInit

/-- The text written to standard output before the search: the construction
loop and the prompt. -/
def header (env : Env) : String :=
  (buildDataset env).2 ++ "Enter integer search key: "

/-- The final `if (index != -1)` of both drivers, `-1` converted to `size_t`. -/
def report (index : Nat) : String :=
  if index ≠ toSizeT (-1) then "Found value at index " ++ toString (toLong index) ++ "\n"
  else "Value not found\n"

/-- The rest of `main` after the kernel call. -/
def finish (out : String) : Outcome → ProgramResult
  | .ret index => ⟨out ++ report index, "", .status 0⟩
  | .fault i => ⟨out, "", .undefined i⟩

/-- The function `main` of `linear_search.c`. -/
def mainLinear (env : Env) (input : Option Int) (fuel : Nat) : Option ProgramResult :=
  (linearSearch (buildDataset env).1 (scanKey env input) SIZE fuel).map
    fun r => finish (header env) r.out

/-- The function `main` of `binary_search.c`. -/
def mainBinary (env : Env) (input : Option Int) (fuel : Nat) : Option ProgramResult :=
  (binarySearch (buildDataset env).1 (scanKey env input) (toSizeT LOW) (toSizeT HIGH) fuel).map
    fun r => finish (header env) r.out

/-- The reference dataset as a closed list: `[0, 2, 4, ..., 198]`. -/
def referenceData : List Int := (List.range SIZE).map fun i => ((2 * i : Nat) : Int)

/-- An environment with every indeterminate value equal to zero. -/
def zeroEnv : Env := ⟨fun _ => 0, fun _ => 0, 0⟩

/-- The strictly increasing sequence `[0, 1, ..., 100]` of length 101. -/
def countingData : List Int := (List.range 101).map fun i => ((i : Nat) : Int)

/-- The value of the expression `len(s) - 1` passed as the `size_t` argument
`high`. -/
def lastIndex (s : List Int) : Nat := toSizeT ((s.length : Int) - 1)

/-- The statement `size_t middle = (low + high) / 2;` of `binarySearch`: the
sum is taken in `size_t`, modulo `2 ^ 64`. -/
def midpoint (low high : Nat) : Nat := ((low + high) % SIZE_T_MOD) / 2

/-- The values of `(low, high)` at the successive tests `low <= high` of the
`while` loop of `binarySearch`, same control flow as `binarySearchLoop`. -/
def binarySearchWindows (b : List Int) (searchKey : Int) : Nat → Nat → Nat → List (Nat × Nat)
  | 0, _, _ => []
  | fuel + 1, low, high =>
    (low, high) ::
      if low ≤ high then
        match b[midpoint low high]? with
        | none => []
        | some v =>
          if searchKey = v then []
          else if searchKey < v then
            binarySearchWindows b searchKey fuel low
              ((midpoint low high + SIZE_T_MOD - 1) % SIZE_T_MOD)
          else
            binarySearchWindows b searchKey fuel ((midpoint low high + 1) % SIZE_T_MOD) high
      else []

/-! ## The loop on a machine without bounds checks -/

/-- The read of `b[i]` as the machine performs it: inside the array the
element; outside it the word `mem i` that the address holds, or `none` when the
access traps. -/
def loadWord (mem : Nat → Option Int) (b : List Int) (i : Nat) : Option Int :=
  match b[i]? with
  | some v => some v
  | none => mem i

/-- The `while` loop of `binarySearch` with the memory around the array given
by `mem`: a read outside the array yields the word found there and the loop
goes on; `Outcome.fault i` is a trapped access. -/
def binarySearchMem (mem : Nat → Option Int) (b : List Int) (searchKey : Int) :
    Nat → Nat → Nat → Option Run
  | 0, _, _ => none
  | fuel + 1, low, high =>
    if low ≤ high then
      match loadWord mem b (midpoint low high) with
      | none => some ⟨[midpoint low high], .fault (midpoint low high)⟩
      | some v =>
        if searchKey = v then some ⟨[midpoint low high], .ret (midpoint low high)⟩
        else if searchKey < v then
          (binarySearchMem mem b searchKey fuel low
            ((midpoint low high + SIZE_T_MOD - 1) % SIZE_T_MOD)).map
            (Run.after (midpoint low high))
        else
          (binarySearchMem mem b searchKey fuel
            ((midpoint low high + 1) % SIZE_T_MOD) high).map
            (Run.after (midpoint low high))
    else some ⟨[], .ret NOT_FOUND⟩

/-- The function `main` of `binary_search.c` with the memory around the array
`a` given by `mem`. -/
def mainBinaryMem (mem : Nat → Option Int) (env : Env) (input : Option Int) (fuel : Nat) :
    Option ProgramResult :=
  (binarySearchMem mem (buildDataset env).1 (scanKey env input) fuel (toSizeT LOW)
    (toSizeT HIGH)).map fun r => finish (header env) r.out

/-- Memory in which the only readable word outside the array is the `int` just
before it, holding `w`. With 4-byte `int` that word is `b[2 ^ 63 - 1]`: the byte
offset `4 * (2 ^ 63 - 1)` is `-4` modulo `2 ^ 64`. Every other stray access
traps. -/
def wordBefore (w : Int) : Nat → Option Int :=
  fun i => if i = 2 ^ 63 - 1 then some w else none

/-- Memory in which every access outside the array traps. -/
def noMemory : Nat → Option Int := fun _ => none

/-! ## Shared lemmas -/

set_option maxRecDepth 1000000

theorem buildLoop_length (env : Env) (n : Nat) (st : List Int × String) :
    ((List.range n).foldl (buildStep env) st).1.length = st.1.length := by
  induction n with
  | zero => simp
  | succ n ih =>
    rw [List.range_succ, List.foldl_append]
    simp [buildStep, ih]

theorem buildLoop_getElem? (env : Env) (n : Nat) (st : List Int × String) (i : Nat) :
    (((List.range n).foldl (buildStep env) st).1)[i]? =
      if i < n ∧ i < st.1.length then some (toInt ((2 * i) % SIZE_T_MOD)) else st.1[i]? := by
  induction n with
  | zero => simp
  | succ n ih =>
    rw [List.range_succ, List.foldl_append]
    simp only [List.foldl_cons, List.foldl_nil, buildStep]
    rw [List.getElem?_set, buildLoop_length, ih]
    by_cases hni : n = i
    · subst hni
      by_cases hl : n < st.1.length
      · simp [hl]
      · have : st.1.length ≤ n := by omega
        simp [hl, List.getElem?_eq_none this]
    · by_cases hl : i < st.1.length
      · by_cases hin : i < n
        · have : i < n + 1 := by omega
          simp [hni, hl, hin, this]
        · have : ¬ i < n + 1 := by omega
          simp [hni, hin, this]
      · simp [hni, hl]

theorem toInt_double (i : Nat) (hi : i < SIZE) :
    toInt ((2 * i) % SIZE_T_MOD) = ((2 * i : Nat) : Int) := by
  unfold SIZE at hi
  have h1 : (2 * i) % SIZE_T_MOD = 2 * i := Nat.mod_eq_of_lt (by unfold SIZE_T_MOD; omega)
  have h2 : (2 * i) % 2 ^ 32 = 2 * i := Nat.mod_eq_of_lt (by omega)
  have h3 : 2 * i < 2 ^ 31 := by omega
  rw [h1, toInt, h2, if_pos h3]

theorem buildDataset_fst (env : Env) : (buildDataset env).1 = referenceData := by
  apply List.ext_getElem?
  intro i
  rw [buildDataset, buildLoop_getElem?]
  by_cases hi : i < SIZE
  · have hl : i < (initialArray env, "").1.length := by simp [initialArray, hi]
    rw [if_pos ⟨hi, hl⟩, toInt_double i hi]
    simp [referenceData, hi]
  · have hl : ¬ (i < SIZE ∧ i < (initialArray env, "").1.length) := fun h => hi h.1
    rw [if_neg hl]
    have h1 : (initialArray env).length ≤ i := by simp [initialArray]; omega
    have h2 : referenceData.length ≤ i := by simp [referenceData]; omega
    rw [List.getElem?_eq_none h1, List.getElem?_eq_none h2]

theorem linearSearchLoop_fuel_mono (array : List Int) (key : Int) :
    ∀ (fuel fuel2 n : Nat) (r : Run), fuel ≤ fuel2 →
      linearSearchLoop array key fuel n = some r →
      linearSearchLoop array key fuel2 n = some r := by
  intro fuel
  induction fuel with
  | zero => intro fuel2 n r _ h; simp [linearSearchLoop] at h
  | succ f ih =>
    intro fuel2 n r hle h
    obtain ⟨g, rfl⟩ : ∃ g, fuel2 = g + 1 := ⟨fuel2 - 1, by omega⟩
    have hfg : f ≤ g := by omega
    rw [linearSearchLoop] at h ⊢
    by_cases hn : n < SIZE
    · simp only [hn, if_true] at h ⊢
      cases hv : array[n]? with
      | none => simpa [hv] using h
      | some v =>
        simp only [hv] at h ⊢
        by_cases hk : v = key
        · simpa [hk] using h
        · simp only [hk, if_false] at h ⊢
          rcases Option.map_eq_some'.1 h with ⟨r0, hr0, hr⟩
          rw [ih g _ r0 hfg hr0]
          simpa using hr
    · simpa [hn] using h

theorem binarySearchLoop_fuel_mono (b : List Int) (searchKey : Int) :
    ∀ (fuel fuel2 low high : Nat) (r : Run), fuel ≤ fuel2 →
      binarySearchLoop b searchKey fuel low high = some r →
      binarySearchLoop b searchKey fuel2 low high = some r := by
  intro fuel
  induction fuel with
  | zero => intro fuel2 low high r _ h; simp [binarySearchLoop] at h
  | succ f ih =>
    intro fuel2 low high r hle h
    obtain ⟨g, rfl⟩ : ∃ g, fuel2 = g + 1 := ⟨fuel2 - 1, by omega⟩
    have hfg : f ≤ g := by omega
    rw [binarySearchLoop] at h ⊢
    by_cases hn : low ≤ high
    · simp only [hn, if_true] at h ⊢
      cases hv : b[((low + high) % SIZE_T_MOD) / 2]? with
      | none => simpa [hv] using h
      | some v =>
        simp only [hv] at h ⊢
        by_cases hk : searchKey = v
        · simpa [hk] using h
        · simp only [hk, if_false] at h ⊢
          by_cases hlt : searchKey < v
          · simp only [hlt, if_true] at h ⊢
            rcases Option.map_eq_some'.1 h with ⟨r0, hr0, hr⟩
            rw [ih g _ _ r0 hfg hr0]
            simpa using hr
          · simp only [hlt, if_false] at h ⊢
            rcases Option.map_eq_some'.1 h with ⟨r0, hr0, hr⟩
            rw [ih g _ _ r0 hfg hr0]
            simpa using hr
    · simpa [hn] using h

theorem linearSearchLoop_out_mono (array : List Int) (key : Int) (fuel fuel2 n : Nat)
    (o : Outcome) (hle : fuel ≤ fuel2)
    (h : (linearSearchLoop array key fuel n).map Run.out = some o) :
    (linearSearchLoop array key fuel2 n).map Run.out = some o := by
  rcases Option.map_eq_some'.1 h with ⟨r, hr, ho⟩
  rw [linearSearchLoop_fuel_mono array key fuel fuel2 n r hle hr]
  simpa using ho

theorem binarySearchLoop_out_mono (b : List Int) (searchKey : Int) (fuel fuel2 low high : Nat)
    (o : Outcome) (hle : fuel ≤ fuel2)
    (h : (binarySearchLoop b searchKey fuel low high).map Run.out = some o) :
    (binarySearchLoop b searchKey fuel2 low high).map Run.out = some o := by
  rcases Option.map_eq_some'.1 h with ⟨r, hr, ho⟩
  rw [binarySearchLoop_fuel_mono b searchKey fuel fuel2 low high r hle hr]
  simpa using ho

theorem mainLinear_eq (env : Env) (input : Option Int) (fuel : Nat) :
    mainLinear env input fuel =
      ((linearSearchLoop referenceData (scanKey env input) fuel 0).map Run.out).map
        (finish (header env)) := by
  rw [mainLinear, linearSearch, buildDataset_fst, Option.map_map]
  rfl

theorem mainBinary_eq (env : Env) (input : Option Int) (fuel : Nat) :
    mainBinary env input fuel =
      ((binarySearchLoop referenceData (scanKey env input) fuel 0 100).map Run.out).map
        (finish (header env)) := by
  rw [mainBinary, binarySearch, buildDataset_fst, Option.map_map]
  rfl

theorem toSizeT_neg_one : toSizeT (-1) = 2 ^ 64 - 1 := by decide

theorem report_of_lt (i : Nat) (hi : i < SIZE) :
    report i = "Found value at index " ++ toString i ++ "\n" := by
  unfold SIZE at hi
  have h1 : i ≠ toSizeT (-1) := by rw [toSizeT_neg_one]; omega
  have h2 : i % SIZE_T_MOD = i := Nat.mod_eq_of_lt (by unfold SIZE_T_MOD; omega)
  have h3 : i < 2 ^ 63 := by omega
  rw [report, if_pos h1, toLong, h2, if_pos h3]
  rfl

theorem report_not_found : report NOT_FOUND = "Value not found\n" := by decide

theorem linear_reference_found :
    ∀ i, i < 100 →
      (linearSearchLoop referenceData ((2 * i : Nat) : Int) 100 0).map Run.out
        = some (Outcome.ret i) := by
  decide

theorem binary_reference_found :
    ∀ i, i < 100 →
      (binarySearchLoop referenceData ((2 * i : Nat) : Int) 100 0 100).map Run.out
        = some (Outcome.ret i) := by
  decide

theorem reference_absent_runs :
    (linearSearchLoop referenceData 200 101 0).map Run.out = some (Outcome.ret NOT_FOUND) ∧
    (linearSearchLoop referenceData (-1) 101 0).map Run.out = some (Outcome.ret NOT_FOUND) ∧
    (linearSearchLoop referenceData 7 101 0).map Run.out = some (Outcome.ret NOT_FOUND) ∧
    (binarySearchLoop referenceData 200 8 0 100).map Run.out = some (Outcome.fault 100) ∧
    (binarySearchLoop referenceData (-1) 8 0 100).map Run.out
      = some (Outcome.fault (2 ^ 63 - 1)) ∧
    (binarySearchLoop referenceData 7 8 0 100).map Run.out = some (Outcome.ret NOT_FOUND) := by
  decide

theorem referenceData_increasing : referenceData.Pairwise (fun x y => x < y) := by
  decide

theorem countingData_increasing : countingData.Pairwise (fun x y => x < y) := by
  decide

/-! ## The search kernels on arbitrary sequences -/

/-- C1: `linearSearch(s, k, len(s))` does not return the smallest index holding
`k` for every sequence: the loop runs to the macro `SIZE` and ignores `size`.
On the 101 element sequence `0, 1, ..., 100` the key `100` sits at index 100
and the call with `size = 101` returns the absent marker after reading the
indices `0 .. 99`; on the one element sequence `[1]` the key `5` makes the call
with `size = 1` read index 1, outside the array. -/
theorem linearSearch_scans_SIZE_not_size :
    countingData.length = 101 ∧ countingData[100]? = some 100 ∧
    linearSearch countingData 100 countingData.length 101
      = some ⟨List.range 100, Outcome.ret NOT_FOUND⟩ ∧
    linearSearch [1] 5 ([1] : List Int).length 101 = some ⟨[0, 1], Outcome.fault 1⟩ := by
  decide

/-- C2: on the non-decreasing sequence `[2, 4, 6]` and the key `1`, which does
not occur, `binarySearch(s, k, 0, len(s) - 1)` does not return the absent
marker: after reading indices 1 and 0 the assignment `high = middle - 1` wraps
to `2 ^ 64 - 1` and the next iteration reads index `2 ^ 63 - 1`, outside the
array. -/
theorem binarySearch_small_key_wraps :
    ([2, 4, 6] : List Int).Pairwise (fun x y => x ≤ y) ∧ (1 : Int) ∉ ([2, 4, 6] : List Int) ∧
    lastIndex [2, 4, 6] = 2 ∧
    binarySearch [2, 4, 6] 1 0 (lastIndex [2, 4, 6]) 3
      = some ⟨[1, 0, 2 ^ 63 - 1], Outcome.fault (2 ^ 63 - 1)⟩ := by
  decide

/-- C3: the two kernels do not agree on every strictly increasing sequence.
On the reference dataset with key `-1` the linear kernel returns the absent
marker while `binarySearch(s, -1, 0, 99)` reads index `2 ^ 63 - 1` outside the
array; on `0, 1, ..., 100` with key `100` the linear kernel returns the absent
marker while the binary kernel returns position 100. -/
theorem kernels_disagree :
    referenceData.Pairwise (fun x y => x < y) ∧
    lastIndex referenceData = 99 ∧
    (linearSearch referenceData (-1) referenceData.length 101).map Run.out
      = some (Outcome.ret NOT_FOUND) ∧
    (binarySearch referenceData (-1) 0 (lastIndex referenceData) 8).map Run.out
      = some (Outcome.fault (2 ^ 63 - 1)) ∧
    countingData.Pairwise (fun x y => x < y) ∧
    lastIndex countingData = 100 ∧
    (linearSearch countingData 100 countingData.length 101).map Run.out
      = some (Outcome.ret NOT_FOUND) ∧
    (binarySearch countingData 100 0 (lastIndex countingData) 8).map Run.out
      = some (Outcome.ret 100) := by
  refine ⟨referenceData_increasing, by decide, reference_absent_runs.2.1, by decide,
    countingData_increasing, by decide, by decide, by decide⟩

/-- C4: on the empty sequence neither kernel returns the absent marker, for any
key: `linearSearch(s, k, 0)` reads index 0, and `binarySearch(s, k, 0, len(s) - 1)`
receives `high = 2 ^ 64 - 1` and reads index `2 ^ 63 - 1`. -/
theorem empty_sequence_is_read (k : Int) (fuel : Nat) :
    linearSearch [] k 0 (fuel + 1) = some ⟨[0], Outcome.fault 0⟩ ∧
    lastIndex [] = 2 ^ 64 - 1 ∧
    binarySearch [] k 0 (lastIndex []) (fuel + 1)
      = some ⟨[2 ^ 63 - 1], Outcome.fault (2 ^ 63 - 1)⟩ := by
  have hl : lastIndex [] = 2 ^ 64 - 1 := by decide
  refine ⟨?_, hl, ?_⟩
  · simp [linearSearch, linearSearchLoop, SIZE]
  · rw [hl]
    simp [binarySearch, binarySearchLoop, SIZE_T_MOD]

/-- C5: with `0 <= low` and `high < len(seq)` the binary kernel can still read
outside the array: on the unsorted sequence `[9, 4, 7]` with key `1`, `low = 0`
and `high = 2` it reads indices 1, 0 and then `2 ^ 63 - 1`, which is not below
the length 3. -/
theorem binarySearch_reads_outside :
    (2 : Nat) < ([9, 4, 7] : List Int).length ∧
    binarySearch [9, 4, 7] 1 0 2 3 = some ⟨[1, 0, 2 ^ 63 - 1], Outcome.fault (2 ^ 63 - 1)⟩ ∧
    ¬ (2 ^ 63 - 1 < ([9, 4, 7] : List Int).length) := by
  decide

/-- C6: on the sorted sequence `[5]` of length `N = 1` and the key `3` the call
`binarySearch(s, 3, 0, N - 1)` makes two loop iterations (reading index 0 and
then index `2 ^ 63 - 1`), more than `ceil(log2(N + 1)) = 1`. -/
theorem binarySearch_exceeds_log_bound :
    lastIndex [5] = 0 ∧
    (binarySearch [5] 3 0 (lastIndex [5]) 2).map (fun r => r.reads.length) = some 2 ∧
    Nat.clog 2 (([5] : List Int).length + 1) = 1 := by
  refine ⟨by decide, by decide, ?_⟩
  simp [Nat.clog]

/-! ## The drivers on the reference dataset -/

/-- C7: for every `i` in `[0, 100)` and enough fuel, both kernels as called by
their drivers return position `i` for the key `2 * i`, and both drivers end
their output with the line `Found value at index i` and return status 0. -/
theorem found_scenarios (env : Env) (i fuel : Nat) (hi : i < SIZE) (hfuel : SIZE ≤ fuel) :
    (linearSearch (buildDataset env).1 ((2 * i : Nat) : Int) SIZE fuel).map Run.out
      = some (Outcome.ret i) ∧
    (binarySearch (buildDataset env).1 ((2 * i : Nat) : Int) (toSizeT LOW) (toSizeT HIGH)
      fuel).map Run.out = some (Outcome.ret i) ∧
    mainLinear env (some ((2 * i : Nat) : Int)) fuel
      = some ⟨header env ++ ("Found value at index " ++ toString i ++ "\n"), "",
          Exit.status 0⟩ ∧
    mainBinary env (some ((2 * i : Nat) : Int)) fuel
      = some ⟨header env ++ ("Found value at index " ++ toString i ++ "\n"), "",
          Exit.status 0⟩ := by
  have hl := linearSearchLoop_out_mono referenceData _ 100 fuel 0 _ hfuel
    (linear_reference_found i hi)
  have hb := binarySearchLoop_out_mono referenceData _ 100 fuel 0 100 _ hfuel
    (binary_reference_found i hi)
  refine ⟨?_, ?_, ?_, ?_⟩
  · rw [linearSearch, buildDataset_fst]; exact hl
  · rw [binarySearch, buildDataset_fst]; exact hb
  · rw [mainLinear_eq, scanKey, hl]
    simp [finish, report_of_lt i hi]
  · rw [mainBinary_eq, scanKey, hb]
    simp [finish, report_of_lt i hi]

/-- Witness of C7 at `i = 25`: key 50 gives `Found value at index 25`. -/
theorem found_scenarios_witness :
    (linearSearch (buildDataset zeroEnv).1 ((2 * 25 : Nat) : Int) SIZE 100).map Run.out
      = some (Outcome.ret 25) ∧
    (binarySearch (buildDataset zeroEnv).1 ((2 * 25 : Nat) : Int) (toSizeT LOW) (toSizeT HIGH)
      100).map Run.out = some (Outcome.ret 25) ∧
    mainLinear zeroEnv (some ((2 * 25 : Nat) : Int)) 100
      = some ⟨header zeroEnv ++ ("Found value at index " ++ toString 25 ++ "\n"), "",
          Exit.status 0⟩ ∧
    mainBinary zeroEnv (some ((2 * 25 : Nat) : Int)) 100
      = some ⟨header zeroEnv ++ ("Found value at index " ++ toString 25 ++ "\n"), "",
          Exit.status 0⟩ :=
  found_scenarios zeroEnv 25 100 (by decide) (by decide)

/-- C8: the binary driver does not print `Value not found` for every absent
key. With key `200` the call `binarySearch(a, 200, 0, 100)` reads `a[100]`, and
with key `-1` it reads index `2 ^ 63 - 1`: both are outside the 100 element
array and no result line is printed. The linear driver prints
`Value not found` for the keys 200, -1 and 7, the binary driver for key 7. -/
theorem absent_scenarios_binary_faults (env : Env) (fuel : Nat) :
    mainBinary env (some 200) (fuel + 8) = some ⟨header env, "", Exit.undefined 100⟩ ∧
    mainBinary env (some (-1)) (fuel + 8)
      = some ⟨header env, "", Exit.undefined (2 ^ 63 - 1)⟩ ∧
    mainBinary env (some 7) (fuel + 8)
      = some ⟨header env ++ "Value not found\n", "", Exit.status 0⟩ ∧
    mainLinear env (some 200) (fuel + 101)
      = some ⟨header env ++ "Value not found\n", "", Exit.status 0⟩ ∧
    mainLinear env (some (-1)) (fuel + 101)
      = some ⟨header env ++ "Value not found\n", "", Exit.status 0⟩ ∧
    mainLinear env (some 7) (fuel + 101)
      = some ⟨header env ++ "Value not found\n", "", Exit.status 0⟩ := by
  obtain ⟨l200, lneg, l7, b200, bneg, b7⟩ := reference_absent_runs
  have hb : 8 ≤ fuel + 8 := Nat.le_add_left _ _
  have hl : 101 ≤ fuel + 101 := Nat.le_add_left _ _
  refine ⟨?_, ?_, ?_, ?_, ?_, ?_⟩
  · rw [mainBinary_eq, scanKey, binarySearchLoop_out_mono _ _ _ _ _ _ _ hb b200]; rfl
  · rw [mainBinary_eq, scanKey, binarySearchLoop_out_mono _ _ _ _ _ _ _ hb bneg]; rfl
  · rw [mainBinary_eq, scanKey, binarySearchLoop_out_mono _ _ _ _ _ _ _ hb b7]
    simp [finish, report_not_found]
  · rw [mainLinear_eq, scanKey, linearSearchLoop_out_mono _ _ _ _ _ _ hl l200]
    simp [finish, report_not_found]
  · rw [mainLinear_eq, scanKey, linearSearchLoop_out_mono _ _ _ _ _ _ hl lneg]
    simp [finish, report_not_found]
  · rw [mainLinear_eq, scanKey, linearSearchLoop_out_mono _ _ _ _ _ _ hl l7]
    simp [finish, report_not_found]

/-- C9: after the construction loop of either driver the array has exactly 100
elements, and the element at every position `i` in `[0, 100)` is `2 * i`. -/
theorem dataset_contents (env : Env) (i : Nat) (hi : i < SIZE) :
    (buildDataset env).1.length = 100 ∧
    (buildDataset env).1[i]? = some ((2 * i : Nat) : Int) := by
  rw [buildDataset_fst]
  constructor
  · simp [referenceData, SIZE]
  · simp [referenceData, hi]

/-- Witness of C9 at position 99, which holds 198. -/
theorem dataset_contents_witness :
    (buildDataset zeroEnv).1.length = 100 ∧
    (buildDataset zeroEnv).1[99]? = some ((2 * 99 : Nat) : Int) :=
  dataset_contents zeroEnv 99 (by decide)

/-- C10: the call made by the binary driver is `binarySearch(a, key, 0, 100)`:
`high` is `N = 100`, not `N - 1 = 99`, and 100 is not an index of the 100
element dataset. -/
theorem mainBinary_window (env : Env) (input : Option Int) (fuel : Nat) :
    mainBinary env input fuel
      = (binarySearch (buildDataset env).1 (scanKey env input) 0 100 fuel).map
          (fun r => finish (header env) r.out) ∧
    toSizeT HIGH = SIZE ∧
    (buildDataset env).1.length = SIZE ∧
    (buildDataset env).1[toSizeT HIGH]? = none := by
  have hh : toSizeT HIGH = 100 := by decide
  refine ⟨rfl, hh, ?_, ?_⟩
  · rw [buildDataset_fst]; simp [referenceData]
  · rw [buildDataset_fst, hh]; simp [referenceData, SIZE]

/-! ## One iteration of the `while` loop -/

theorem binarySearchLoop_exit (b : List Int) (key : Int) (fuel low high : Nat)
    (h : ¬ low ≤ high) :
    binarySearchLoop b key (fuel + 1) low high = some ⟨[], Outcome.ret NOT_FOUND⟩ := by
  rw [binarySearchLoop, if_neg h]

theorem binarySearchLoop_fault (b : List Int) (key : Int) (fuel low high : Nat)
    (h : low ≤ high) (hm : b[midpoint low high]? = none) :
    binarySearchLoop b key (fuel + 1) low high
      = some ⟨[midpoint low high], Outcome.fault (midpoint low high)⟩ := by
  unfold midpoint at hm ⊢
  rw [binarySearchLoop, if_pos h]
  simp only [hm]

theorem binarySearchLoop_hit (b : List Int) (key : Int) (fuel low high : Nat)
    (h : low ≤ high) (hm : b[midpoint low high]? = some key) :
    binarySearchLoop b key (fuel + 1) low high
      = some ⟨[midpoint low high], Outcome.ret (midpoint low high)⟩ := by
  unfold midpoint at hm ⊢
  rw [binarySearchLoop, if_pos h]
  simp only [hm, if_true]

theorem binarySearchLoop_left (b : List Int) (key v : Int) (fuel low high : Nat)
    (h : low ≤ high) (hm : b[midpoint low high]? = some v) (hv : key < v) :
    binarySearchLoop b key (fuel + 1) low high
      = (binarySearchLoop b key fuel low
          ((midpoint low high + SIZE_T_MOD - 1) % SIZE_T_MOD)).map
          (Run.after (midpoint low high)) := by
  unfold midpoint at hm ⊢
  have hne : ¬ key = v := by omega
  rw [binarySearchLoop, if_pos h]
  simp only [hm, if_neg hne, if_pos hv]

theorem binarySearchLoop_right (b : List Int) (key v : Int) (fuel low high : Nat)
    (h : low ≤ high) (hm : b[midpoint low high]? = some v) (hv : v < key) :
    binarySearchLoop b key (fuel + 1) low high
      = (binarySearchLoop b key fuel ((midpoint low high + 1) % SIZE_T_MOD) high).map
          (Run.after (midpoint low high)) := by
  unfold midpoint at hm ⊢
  have hne : ¬ key = v := by omega
  have hlt : ¬ key < v := by omega
  rw [binarySearchLoop, if_pos h]
  simp only [hm, if_neg hne, if_neg hlt]

theorem midpoint_of_lt (low high : Nat) (h : low ≤ high) (hh : high < 2 ^ 63) :
    midpoint low high = low + (high - low) / 2 ∧
      low ≤ midpoint low high ∧ midpoint low high ≤ high := by
  have hs : (low + high) % SIZE_T_MOD = low + high :=
    Nat.mod_eq_of_lt (by unfold SIZE_T_MOD; omega)
  unfold midpoint
  rw [hs]
  omega

theorem pred_mod (m : Nat) (hm : 0 < m) (hlt : m < 2 ^ 63) :
    (m + SIZE_T_MOD - 1) % SIZE_T_MOD = m - 1 := by
  unfold SIZE_T_MOD
  omega

theorem succ_mod (m : Nat) (hlt : m < 2 ^ 63) : (m + 1) % SIZE_T_MOD = m + 1 := by
  unfold SIZE_T_MOD
  omega

theorem binarySearchLoop_wrapped (b : List Int) (key : Int) (fuel : Nat)
    (hlen : b.length < 2 ^ 63) :
    binarySearchLoop b key (fuel + 1) 0 ((0 + SIZE_T_MOD - 1) % SIZE_T_MOD)
      = some ⟨[2 ^ 63 - 1], Outcome.fault (2 ^ 63 - 1)⟩ := by
  have hm : midpoint 0 ((0 + SIZE_T_MOD - 1) % SIZE_T_MOD) = 2 ^ 63 - 1 := by decide
  have h := binarySearchLoop_fault b key fuel 0 ((0 + SIZE_T_MOD - 1) % SIZE_T_MOD)
    (Nat.zero_le _) (by rw [hm]; exact List.getElem?_eq_none (by omega))
  rw [hm] at h
  exact h

/-! ## Runs of `binarySearch` inside an array -/

theorem Run.after_reads (i : Nat) (r : Run) : (Run.after i r).reads = i :: r.reads := rfl

theorem Run.after_out (i : Nat) (r : Run) : (Run.after i r).out = r.out := rfl

theorem getElem?_some_of_lt (b : List Int) (i : Nat) (h : i < b.length) :
    ∃ v, b[i]? = some v := ⟨b[i], List.getElem?_eq_getElem h⟩

theorem binarySearchLoop_confined (b : List Int) (key : Int) (L H : Nat)
    (hlen : b.length < 2 ^ 63) (hH : H < b.length) :
    ∀ (fuel lo hi : Nat), L ≤ lo → hi ≤ H → hi + 1 - lo < fuel →
      ∃ r, binarySearchLoop b key fuel lo hi = some r ∧
        (((∀ i ∈ r.reads, L ≤ i ∧ i ≤ H) ∧
            (r.out = Outcome.ret NOT_FOUND ∨
              ∃ v, L ≤ v ∧ v ≤ H ∧ b[v]? = some key ∧ r.out = Outcome.ret v)) ∨
          (L = 0 ∧ (∃ v0, b[0]? = some v0 ∧ key < v0) ∧
            r.out = Outcome.fault (2 ^ 63 - 1))) := by
  intro fuel
  induction fuel with
  | zero => intro lo hi _ _ h; omega
  | succ f ih =>
    intro lo hi hL hhi hf
    by_cases hle : lo ≤ hi
    · obtain ⟨_, hlm, hmh⟩ := midpoint_of_lt lo hi hle (by omega)
      obtain ⟨v, hv⟩ := getElem?_some_of_lt b (midpoint lo hi) (by omega)
      rcases lt_trichotomy key v with hlt | heq | hgt
      · rw [binarySearchLoop_left b key v f lo hi hle hv hlt]
        by_cases hm0 : midpoint lo hi = 0
        · obtain ⟨g, rfl⟩ : ∃ g, f = g + 1 := ⟨f - 1, by omega⟩
          have hlo : lo = 0 := by omega
          subst hlo
          rw [hm0] at hv ⊢
          rw [binarySearchLoop_wrapped b key g hlen]
          exact ⟨_, rfl, Or.inr ⟨by omega, ⟨v, hv, hlt⟩, rfl⟩⟩
        · rw [pred_mod _ (by omega) (by omega)]
          obtain ⟨r, hr, hP⟩ := ih lo (midpoint lo hi - 1) hL (by omega) (by omega)
          rw [hr]
          refine ⟨_, rfl, ?_⟩
          rcases hP with ⟨hreads, hout⟩ | hw
          · left
            refine ⟨?_, hout⟩
            intro i hi
            rw [Run.after_reads, List.mem_cons] at hi
            rcases hi with rfl | hi
            · omega
            · exact hreads i hi
          · right; exact hw
      · subst heq
        rw [binarySearchLoop_hit b key f lo hi hle hv]
        refine ⟨_, rfl, Or.inl ⟨?_, Or.inr ⟨midpoint lo hi, by omega, by omega, hv, rfl⟩⟩⟩
        intro i hi
        rw [List.mem_singleton] at hi
        omega
      · rw [binarySearchLoop_right b key v f lo hi hle hv hgt, succ_mod _ (by omega)]
        obtain ⟨r, hr, hP⟩ := ih (midpoint lo hi + 1) hi (by omega) hhi (by omega)
        rw [hr]
        refine ⟨_, rfl, ?_⟩
        rcases hP with ⟨hreads, hout⟩ | hw
        · left
          refine ⟨?_, hout⟩
          intro i hi
          rw [Run.after_reads, List.mem_cons] at hi
          rcases hi with rfl | hi
          · omega
          · exact hreads i hi
        · right; exact hw
    · rw [binarySearchLoop_exit b key f lo hi hle]
      exact ⟨_, rfl, Or.inl ⟨by simp, Or.inl rfl⟩⟩

/-! ## The windows of `binarySearch` -/

theorem binarySearchWindows_exit (b : List Int) (key : Int) (fuel low high : Nat)
    (h : ¬ low ≤ high) :
    binarySearchWindows b key (fuel + 1) low high = [(low, high)] := by
  rw [binarySearchWindows, if_neg h]

theorem binarySearchWindows_fault (b : List Int) (key : Int) (fuel low high : Nat)
    (h : low ≤ high) (hm : b[midpoint low high]? = none) :
    binarySearchWindows b key (fuel + 1) low high = [(low, high)] := by
  rw [binarySearchWindows, if_pos h]
  simp only [hm]

theorem binarySearchWindows_hit (b : List Int) (key : Int) (fuel low high : Nat)
    (h : low ≤ high) (hm : b[midpoint low high]? = some key) :
    binarySearchWindows b key (fuel + 1) low high = [(low, high)] := by
  rw [binarySearchWindows, if_pos h]
  simp only [hm, if_true]

theorem binarySearchWindows_left (b : List Int) (key v : Int) (fuel low high : Nat)
    (h : low ≤ high) (hm : b[midpoint low high]? = some v) (hv : key < v) :
    binarySearchWindows b key (fuel + 1) low high
      = (low, high) :: binarySearchWindows b key fuel low
          ((midpoint low high + SIZE_T_MOD - 1) % SIZE_T_MOD) := by
  have hne : ¬ key = v := by omega
  rw [binarySearchWindows, if_pos h]
  simp only [hm, if_neg hne, if_pos hv]

theorem binarySearchWindows_right (b : List Int) (key v : Int) (fuel low high : Nat)
    (h : low ≤ high) (hm : b[midpoint low high]? = some v) (hv : v < key) :
    binarySearchWindows b key (fuel + 1) low high
      = (low, high) :: binarySearchWindows b key fuel
          ((midpoint low high + 1) % SIZE_T_MOD) high := by
  have hne : ¬ key = v := by omega
  have hlt : ¬ key < v := by omega
  rw [binarySearchWindows, if_pos h]
  simp only [hm, if_neg hne, if_neg hlt]

/-- The indices read by a run are the midpoints of the non-empty windows. -/
theorem binarySearchLoop_reads_eq (b : List Int) (key : Int) :
    ∀ (fuel lo hi : Nat) (r : Run), binarySearchLoop b key fuel lo hi = some r →
      r.reads = ((binarySearchWindows b key fuel lo hi).filter
        (fun w => decide (w.1 ≤ w.2))).map (fun w => midpoint w.1 w.2) := by
  intro fuel
  induction fuel with
  | zero => intro lo hi r h; simp [binarySearchLoop] at h
  | succ f ih =>
    intro lo hi r h
    by_cases hle : lo ≤ hi
    · cases hm : b[midpoint lo hi]? with
      | none =>
        rw [binarySearchLoop_fault b key f lo hi hle hm] at h
        rw [binarySearchWindows_fault b key f lo hi hle hm]
        cases h
        simp [hle]
      | some v =>
        rcases lt_trichotomy key v with hlt | heq | hgt
        · rw [binarySearchLoop_left b key v f lo hi hle hm hlt] at h
          rw [binarySearchWindows_left b key v f lo hi hle hm hlt]
          rcases Option.map_eq_some'.1 h with ⟨r0, hr0, hr⟩
          subst hr
          simp [Run.after, hle, ih _ _ r0 hr0]
        · subst heq
          rw [binarySearchLoop_hit b key f lo hi hle hm] at h
          rw [binarySearchWindows_hit b key f lo hi hle hm]
          cases h
          simp [hle]
        · rw [binarySearchLoop_right b key v f lo hi hle hm hgt] at h
          rw [binarySearchWindows_right b key v f lo hi hle hm hgt]
          rcases Option.map_eq_some'.1 h with ⟨r0, hr0, hr⟩
          subst hr
          simp [Run.after, hle, ih _ _ r0 hr0]
    · rw [binarySearchLoop_exit b key f lo hi hle] at h
      rw [binarySearchWindows_exit b key f lo hi hle]
      cases h
      simp [hle]

theorem binarySearchWindows_confined (b : List Int) (key : Int) (L H : Nat)
    (hlen : b.length < 2 ^ 63) (hH : H < b.length)
    (hno : 1 ≤ L ∨ ∃ v0, b[0]? = some v0 ∧ v0 ≤ key) :
    ∀ (fuel lo hi : Nat), L ≤ lo → hi ≤ H → lo ≤ hi + 1 →
      ∀ w ∈ binarySearchWindows b key fuel lo hi, L ≤ w.1 ∧ w.1 ≤ w.2 + 1 ∧ w.2 ≤ H := by
  intro fuel
  induction fuel with
  | zero => intro lo hi _ _ _ w hw; simp [binarySearchWindows] at hw
  | succ f ih =>
    intro lo hi hL hhi hlh w hw
    by_cases hle : lo ≤ hi
    · obtain ⟨_, hlm, hmh⟩ := midpoint_of_lt lo hi hle (by omega)
      obtain ⟨v, hv⟩ := getElem?_some_of_lt b (midpoint lo hi) (by omega)
      rcases lt_trichotomy key v with hlt | heq | hgt
      · rw [binarySearchWindows_left b key v f lo hi hle hv hlt, List.mem_cons] at hw
        have hm0 : midpoint lo hi ≠ 0 := by
          intro hm0
          rcases hno with h1 | ⟨v0, hv0, hle0⟩
          · omega
          · rw [hm0, hv0] at hv
            cases hv
            omega
        rcases hw with rfl | hw
        · exact ⟨hL, hlh, hhi⟩
        · rw [pred_mod _ (by omega) (by omega)] at hw
          exact ih lo (midpoint lo hi - 1) hL (by omega) (by omega) w hw
      · subst heq
        rw [binarySearchWindows_hit b key f lo hi hle hv, List.mem_singleton] at hw
        subst hw
        exact ⟨hL, hlh, hhi⟩
      · rw [binarySearchWindows_right b key v f lo hi hle hv hgt, List.mem_cons] at hw
        rcases hw with rfl | hw
        · exact ⟨hL, hlh, hhi⟩
        · rw [succ_mod _ (by omega)] at hw
          exact ih (midpoint lo hi + 1) hi (by omega) hhi (by omega) w hw
    · rw [binarySearchWindows_exit b key f lo hi hle, List.mem_singleton] at hw
      subst hw
      exact ⟨hL, hlh, hhi⟩

/-! ## `binarySearch` on sorted arrays -/

theorem sorted_getElem? (b : List Int) (hs : b.Pairwise (fun x y => x ≤ y))
    (i j : Nat) (x y : Int) (hij : i ≤ j) (hx : b[i]? = some x) (hy : b[j]? = some y) :
    x ≤ y := by
  rcases Nat.eq_or_lt_of_le hij with rfl | hlt
  · rw [hx] at hy
    cases hy
    exact le_refl _
  · obtain ⟨hi, rfl⟩ := List.getElem?_eq_some.1 hx
    obtain ⟨hj, rfl⟩ := List.getElem?_eq_some.1 hy
    exact List.pairwise_iff_getElem.1 hs i j hi hj hlt

theorem binarySearchLoop_sorted (b : List Int) (key : Int)
    (hs : b.Pairwise (fun x y => x ≤ y)) (hlen : b.length < 2 ^ 63)
    (hk : ∃ v0, b[0]? = some v0 ∧ v0 ≤ key) :
    ∀ (fuel lo hi : Nat), hi < b.length → hi + 1 - lo < fuel →
      (∀ i x, i < lo → b[i]? = some x → x < key) →
      (∀ i x, hi < i → b[i]? = some x → key < x) →
      ∃ r, binarySearchLoop b key fuel lo hi = some r ∧
        ((∃ v, r.out = Outcome.ret v ∧ b[v]? = some key) ∨
          (r.out = Outcome.ret NOT_FOUND ∧ key ∉ b)) := by
  intro fuel
  induction fuel with
  | zero => intro lo hi _ h; omega
  | succ f ih =>
    intro lo hi hhi hf hbelow habove
    by_cases hle : lo ≤ hi
    · obtain ⟨_, hlm, hmh⟩ := midpoint_of_lt lo hi hle (by omega)
      obtain ⟨v, hv⟩ := getElem?_some_of_lt b (midpoint lo hi) (by omega)
      rcases lt_trichotomy key v with hlt | heq | hgt
      · rw [binarySearchLoop_left b key v f lo hi hle hv hlt]
        have hm0 : midpoint lo hi ≠ 0 := by
          intro hm0
          obtain ⟨v0, hv0, hle0⟩ := hk
          rw [hm0, hv0] at hv
          cases hv
          omega
        rw [pred_mod _ (by omega) (by omega)]
        obtain ⟨r, hr, hP⟩ := ih lo (midpoint lo hi - 1) (by omega) (by omega) hbelow
          (fun i x hi hx =>
            lt_of_lt_of_le hlt (sorted_getElem? b hs _ i v x (by omega) hv hx))
        rw [hr]
        exact ⟨_, rfl, hP⟩
      · subst heq
        rw [binarySearchLoop_hit b key f lo hi hle hv]
        exact ⟨_, rfl, Or.inl ⟨_, rfl, hv⟩⟩
      · rw [binarySearchLoop_right b key v f lo hi hle hv hgt, succ_mod _ (by omega)]
        obtain ⟨r, hr, hP⟩ := ih (midpoint lo hi + 1) hi hhi (by omega)
          (fun i x hi hx =>
            lt_of_le_of_lt (sorted_getElem? b hs i _ x v (by omega) hx hv) hgt)
          habove
        rw [hr]
        exact ⟨_, rfl, hP⟩
    · rw [binarySearchLoop_exit b key f lo hi hle]
      refine ⟨_, rfl, Or.inr ⟨rfl, ?_⟩⟩
      intro hmem
      obtain ⟨i, hi, hget⟩ := List.getElem_of_mem hmem
      have hget2 : b[i]? = some key := by rw [List.getElem?_eq_getElem hi, hget]
      by_cases hc : i < lo
      · exact absurd (hbelow i key hc hget2) (lt_irrefl _)
      · exact absurd (habove i key (by omega) hget2) (lt_irrefl _)

/-- Two keys that compare alike with every element give the same run. -/
theorem binarySearchLoop_congr (b : List Int) (key key2 : Int)
    (h : ∀ v ∈ b, (key = v ↔ key2 = v) ∧ (key < v ↔ key2 < v)) :
    ∀ (fuel lo hi : Nat),
      binarySearchLoop b key fuel lo hi = binarySearchLoop b key2 fuel lo hi := by
  intro fuel
  induction fuel with
  | zero => intro lo hi; rfl
  | succ f ih =>
    intro lo hi
    rw [binarySearchLoop, binarySearchLoop]
    by_cases hle : lo ≤ hi
    · simp only [if_pos hle]
      cases hm : b[(lo + hi) % SIZE_T_MOD / 2]? with
      | none => rfl
      | some v =>
        obtain ⟨h1, h2⟩ := h v (List.getElem?_mem hm)
        simp only [ih]
        by_cases hk : key = v
        · simp only [if_pos hk, if_pos (h1.1 hk)]
        · have hk2 : ¬ key2 = v := fun e => hk (h1.2 e)
          by_cases hl : key < v
          · simp only [if_neg hk, if_neg hk2, if_pos hl, if_pos (h2.1 hl)]
          · have hl2 : ¬ key2 < v := fun e => hl (h2.2 e)
            simp only [if_neg hk, if_neg hk2, if_neg hl, if_neg hl2]
    · simp only [if_neg hle]

/-! ## Runs of `linearSearch` -/

theorem linearSearchLoop_exit (array : List Int) (key : Int) (fuel n : Nat)
    (h : ¬ n < SIZE) :
    linearSearchLoop array key (fuel + 1) n = some ⟨[], Outcome.ret NOT_FOUND⟩ := by
  rw [linearSearchLoop, if_neg h]

theorem linearSearchLoop_fault (array : List Int) (key : Int) (fuel n : Nat)
    (h : n < SIZE) (hn : array[n]? = none) :
    linearSearchLoop array key (fuel + 1) n = some ⟨[n], Outcome.fault n⟩ := by
  rw [linearSearchLoop, if_pos h]
  simp only [hn]

theorem linearSearchLoop_hit (array : List Int) (key : Int) (fuel n : Nat)
    (h : n < SIZE) (hn : array[n]? = some key) :
    linearSearchLoop array key (fuel + 1) n = some ⟨[n], Outcome.ret n⟩ := by
  rw [linearSearchLoop, if_pos h]
  simp only [hn, if_true]

theorem linearSearchLoop_next (array : List Int) (key v : Int) (fuel n : Nat)
    (h : n < SIZE) (hn : array[n]? = some v) (hv : v ≠ key) :
    linearSearchLoop array key (fuel + 1) n
      = (linearSearchLoop array key fuel ((n + 1) % SIZE_T_MOD)).map (Run.after n) := by
  rw [linearSearchLoop, if_pos h]
  simp only [hn, if_neg hv]

theorem linearSearchLoop_scan (array : List Int) (key : Int) (hlen : SIZE ≤ array.length) :
    ∀ (k n fuel : Nat), n + k = SIZE → k < fuel →
      ∃ r, linearSearchLoop array key fuel n = some r ∧
        ((∃ i, n ≤ i ∧ i < SIZE ∧ array[i]? = some key ∧
            (∀ j, n ≤ j → j < i → array[j]? ≠ some key) ∧
            r.out = Outcome.ret i ∧ r.reads = List.range' n (i + 1 - n)) ∨
          ((∀ j, n ≤ j → j < SIZE → array[j]? ≠ some key) ∧
            r.out = Outcome.ret NOT_FOUND ∧ r.reads = List.range' n k)) := by
  intro k
  induction k with
  | zero =>
    intro n fuel hn hf
    obtain ⟨g, rfl⟩ : ∃ g, fuel = g + 1 := ⟨fuel - 1, by omega⟩
    rw [linearSearchLoop_exit array key g n (by omega)]
    exact ⟨_, rfl, Or.inr ⟨fun j h1 h2 => by omega, rfl, rfl⟩⟩
  | succ k ih =>
    intro n fuel hn hf
    obtain ⟨g, rfl⟩ : ∃ g, fuel = g + 1 := ⟨fuel - 1, by omega⟩
    have hnS : n < SIZE := by omega
    obtain ⟨v, hv⟩ := getElem?_some_of_lt array n (by omega)
    by_cases hk : v = key
    · subst hk
      rw [linearSearchLoop_hit array v g n hnS hv]
      refine ⟨_, rfl, Or.inl ⟨n, le_refl _, hnS, hv, fun j h1 h2 => by omega, rfl, ?_⟩⟩
      have : n + 1 - n = 1 := by omega
      rw [this]
      rfl
    · have hmod : (n + 1) % SIZE_T_MOD = n + 1 :=
        Nat.mod_eq_of_lt (by unfold SIZE at hnS; unfold SIZE_T_MOD; omega)
      rw [linearSearchLoop_next array key v g n hnS hv hk, hmod]
      obtain ⟨r, hr, hP⟩ := ih (n + 1) g (by omega) (by omega)
      rw [hr]
      refine ⟨_, rfl, ?_⟩
      have hnot : array[n]? ≠ some key := by
        rw [hv]
        intro e
        cases e
        exact hk rfl
      rcases hP with ⟨i, hni, hiS, hget, hmin, hout, hreads⟩ | ⟨hnone, hout, hreads⟩
      · refine Or.inl ⟨i, by omega, hiS, hget, ?_, hout, ?_⟩
        · intro j h1 h2
          rcases Nat.eq_or_lt_of_le h1 with rfl | h3
          · exact hnot
          · exact hmin j h3 h2
        · have : i + 1 - n = (i + 1 - (n + 1)) + 1 := by omega
          rw [this, List.range'_succ, ← hreads]
          rfl
      · refine Or.inr ⟨?_, hout, ?_⟩
        · intro j h1 h2
          rcases Nat.eq_or_lt_of_le h1 with rfl | h3
          · exact hnot
          · exact hnone j h3 h2
        · rw [List.range'_succ, ← hreads]
          rfl

/-! ## The reference dataset, key by key -/

theorem referenceData_length : referenceData.length = 100 := by
  simp [referenceData, SIZE]

theorem referenceData_getElem? (i : Nat) (hi : i < SIZE) :
    referenceData[i]? = some ((2 * i : Nat) : Int) := by
  simp [referenceData, hi]

theorem referenceData_mem (x : Int) (hx : x ∈ referenceData) :
    ∃ i, i < 100 ∧ x = ((2 * i : Nat) : Int) := by
  simp only [referenceData, List.mem_map, List.mem_range, SIZE] at hx
  obtain ⟨i, hi, rfl⟩ := hx
  exact ⟨i, hi, rfl⟩

theorem binary_reference_inside :
    ∀ n, n < 199 →
      (binarySearchLoop referenceData ((n : Nat) : Int) 8 0 100).map
          (fun r => (r.reads.all (fun i => decide (i < 100)), r.out))
        = some (true, if n % 2 = 0 then Outcome.ret (n / 2) else Outcome.ret NOT_FOUND) := by
  decide

theorem binary_reference_below :
    binarySearchLoop referenceData (-1) 8 0 100
      = some ⟨[50, 24, 11, 5, 2, 0, 2 ^ 63 - 1], Outcome.fault (2 ^ 63 - 1)⟩ := by
  decide

theorem binary_reference_above :
    binarySearchLoop referenceData 200 8 0 100
      = some ⟨[50, 75, 88, 94, 97, 99, 100], Outcome.fault 100⟩ := by
  decide

/-- The run of the binary driver's call on the reference dataset, by key. -/
theorem binary_reference_run (key : Int) :
    (key < 0 → binarySearchLoop referenceData key 8 0 100
      = some ⟨[50, 24, 11, 5, 2, 0, 2 ^ 63 - 1], Outcome.fault (2 ^ 63 - 1)⟩) ∧
    (198 < key → binarySearchLoop referenceData key 8 0 100
      = some ⟨[50, 75, 88, 94, 97, 99, 100], Outcome.fault 100⟩) ∧
    (0 ≤ key → key ≤ 198 → ∃ r, binarySearchLoop referenceData key 8 0 100 = some r ∧
      (∀ i ∈ r.reads, i < 100) ∧
      r.out = if key % 2 = 0 then Outcome.ret (key / 2).toNat else Outcome.ret NOT_FOUND) := by
  refine ⟨?_, ?_, ?_⟩
  · intro hk
    rw [binarySearchLoop_congr referenceData key (-1) ?_ 8 0 100, binary_reference_below]
    intro v hv
    obtain ⟨i, _, rfl⟩ := referenceData_mem v hv
    omega
  · intro hk
    rw [binarySearchLoop_congr referenceData key 200 ?_ 8 0 100, binary_reference_above]
    intro v hv
    obtain ⟨i, hi, rfl⟩ := referenceData_mem v hv
    omega
  · intro h0 h1
    obtain ⟨n, rfl⟩ : ∃ n : Nat, key = (n : Int) := ⟨key.toNat, by omega⟩
    have hn : n < 199 := by omega
    have h := binary_reference_inside n hn
    rcases Option.map_eq_some'.1 h with ⟨r, hr, hpair⟩
    refine ⟨r, hr, ?_, ?_⟩
    · have hall : r.reads.all (fun i => decide (i < 100)) = true := congrArg Prod.fst hpair
      intro i hi
      have := List.all_eq_true.1 hall i hi
      simpa using this
    · have hout : r.out = if n % 2 = 0 then Outcome.ret (n / 2) else Outcome.ret NOT_FOUND :=
        congrArg Prod.snd hpair
      rw [hout]
      by_cases hpar : n % 2 = 0
      · have hpar2 : (n : Int) % 2 = 0 := by omega
        have hdiv : ((n : Int) / 2).toNat = n / 2 := by omega
        rw [if_pos hpar, if_pos hpar2, hdiv]
      · have hpar2 : ¬ (n : Int) % 2 = 0 := by omega
        rw [if_neg hpar, if_neg hpar2]

theorem binary_reference_total (key : Int) (fuel : Nat) :
    ∃ r, binarySearchLoop referenceData key (fuel + 8) 0 100 = some r := by
  obtain ⟨h1, h2, h3⟩ := binary_reference_run key
  have hle : 8 ≤ fuel + 8 := Nat.le_add_left _ _
  by_cases hk : key < 0
  · exact ⟨_, binarySearchLoop_fuel_mono _ _ 8 _ 0 100 _ hle (h1 hk)⟩
  · by_cases hk2 : 198 < key
    · exact ⟨_, binarySearchLoop_fuel_mono _ _ 8 _ 0 100 _ hle (h2 hk2)⟩
    · obtain ⟨r, hr, _⟩ := h3 (by omega) (by omega)
      exact ⟨r, binarySearchLoop_fuel_mono _ _ 8 _ 0 100 _ hle hr⟩

theorem lastIndex_of_pos (s : List Int) (h0 : 0 < s.length) (hlen : s.length < 2 ^ 63) :
    lastIndex s = s.length - 1 := by
  unfold lastIndex toSizeT SIZE_T_MOD
  omega

/-! ## Malformed input, the absent marker, and the index arithmetic -/

/-- C11 (counterexample): with input that `scanf` cannot convert and every
indeterminate value zero, both drivers run the search with key 0, print
`Found value at index 0`, write nothing to standard error and return
status 0. -/
theorem malformed_input_not_rejected :
    mainLinear zeroEnv none 101
      = some ⟨header zeroEnv ++ "Found value at index 0\n", "", Exit.status 0⟩ ∧
    mainBinary zeroEnv none 101
      = some ⟨header zeroEnv ++ "Found value at index 0\n", "", Exit.status 0⟩ := by
  have hl := linearSearchLoop_out_mono referenceData _ 100 101 0 _ (by decide)
    (linear_reference_found 0 (by decide))
  have hb := binarySearchLoop_out_mono referenceData _ 100 101 0 100 _ (by decide)
    (binary_reference_found 0 (by decide))
  have hk : scanKey zeroEnv none = ((2 * 0 : Nat) : Int) := rfl
  have hrep : report 0 = "Found value at index 0\n" := by decide
  constructor
  · rw [mainLinear_eq, hk, hl]
    simp [finish, hrep]
  · rw [mainBinary_eq, hk, hb]
    simp [finish, hrep]

/-- C11 (amended): when `scanf` converts nothing, neither driver checks it:
the run is the run with the indeterminate initial value of `searchKey` as the
key. The linear driver prints a result line and returns status 0; the binary
driver writes nothing to standard error, and whenever it returns, it returns
status 0 after printing a result line. -/
theorem malformed_input_runs_search (env : Env) (fuel : Nat) :
    mainLinear env none fuel = mainLinear env (some env.keyInit) fuel ∧
    mainBinary env none fuel = mainBinary env (some env.keyInit) fuel ∧
    (∃ index, mainLinear env none (fuel + 101)
      = some ⟨header env ++ report index, "", Exit.status 0⟩) ∧
    (∃ res, mainBinary env none (fuel + 8) = some res ∧ res.stderr = "" ∧
      ∀ n, res.exit = Exit.status n →
        n = 0 ∧ ∃ index, res.stdout = header env ++ report index) := by
  refine ⟨rfl, rfl, ?_, ?_⟩
  · obtain ⟨r, hr, hP⟩ := linearSearchLoop_scan referenceData (scanKey env none)
      (by rw [referenceData_length]; decide) 100 0 (fuel + 101) (by decide) (by omega)
    rw [mainLinear_eq, hr]
    rcases hP with ⟨i, _, _, _, _, hout, _⟩ | ⟨_, hout, _⟩
    · exact ⟨i, by simp [hout, finish]⟩
    · exact ⟨NOT_FOUND, by simp [hout, finish]⟩
  · obtain ⟨r, hr⟩ := binary_reference_total (scanKey env none) fuel
    rw [mainBinary_eq, hr]
    refine ⟨_, rfl, ?_, ?_⟩
    · cases hout : r.out <;> simp [finish]
    · intro n hn
      cases hout : r.out with
      | ret v =>
        simp only [Option.map_some', hout, finish] at hn ⊢
        cases hn
        exact ⟨rfl, v, rfl⟩
      | fault i =>
        simp [hout, finish] at hn

/-- C13: when the search reaches `middle == 0` and takes `high = middle - 1`,
the loop does not stop at the next test. On `[10, 20]` with key 5 the windows
are `(0, 1)` and then `(0, 2 ^ 64 - 1)`, on which `low <= high` holds, and the
next iteration reads index `2 ^ 63 - 1` outside the array. -/
theorem underflow_continues_loop :
    ([10, 20] : List Int)[0]? = some 10 ∧ (5 : Int) < 10 ∧ lastIndex [10, 20] = 1 ∧
    midpoint 0 1 = 0 ∧
    binarySearchWindows [10, 20] 5 3 0 (lastIndex [10, 20]) = [(0, 1), (0, 2 ^ 64 - 1)] ∧
    binarySearch [10, 20] 5 0 (lastIndex [10, 20]) 3
      = some ⟨[0, 2 ^ 63 - 1], Outcome.fault (2 ^ 63 - 1)⟩ := by
  decide

/-- C14 (counterexample): for `low = high = 2 ^ 63`, both in the `size_t`
domain, the sum wraps to 0 and `middle` is 0, not `low + (high - low) / 2`,
and lies below `low`; on `[7]` the call returns index 0, outside the window. -/
theorem midpoint_overflows :
    (2 ^ 63 : Nat) ≤ 2 ^ 63 ∧ 2 ^ 63 < SIZE_T_MOD ∧
    midpoint (2 ^ 63) (2 ^ 63) = 0 ∧
    midpoint (2 ^ 63) (2 ^ 63) ≠ 2 ^ 63 + (2 ^ 63 - 2 ^ 63) / 2 ∧
    ¬ (2 ^ 63 ≤ midpoint (2 ^ 63) (2 ^ 63)) ∧
    binarySearch [7] 7 (2 ^ 63) (2 ^ 63) 1 = some ⟨[0], Outcome.ret 0⟩ := by
  decide

/-- C14 (amended): for `low <= high` with `low + high < 2 ^ 64` the `middle`
computed by `binarySearch` is `low + (high - low) / 2`, lies in `[low, high]`,
and is the index the loop reads first. -/
theorem midpoint_safe (b : List Int) (key : Int) (low high fuel : Nat) (r : Run)
    (hlh : low ≤ high) (hsum : low + high < 2 ^ 64)
    (hrun : binarySearchLoop b key (fuel + 1) low high = some r) :
    midpoint low high = low + (high - low) / 2 ∧
    low ≤ midpoint low high ∧ midpoint low high ≤ high ∧
    r.reads.head? = some (low + (high - low) / 2) := by
  have hs : (low + high) % SIZE_T_MOD = low + high :=
    Nat.mod_eq_of_lt (by unfold SIZE_T_MOD; omega)
  have hm : midpoint low high = low + (high - low) / 2 := by
    unfold midpoint
    rw [hs]
    omega
  refine ⟨hm, by omega, by omega, ?_⟩
  rw [binarySearchLoop_reads_eq b key _ _ _ r hrun, binarySearchWindows, ← hm]
  simp [hlh]

/-- Witness of C14 (amended): the window `[3, 8]` on a nine element array. -/
theorem midpoint_safe_witness :
    midpoint 3 8 = 3 + (8 - 3) / 2 ∧ 3 ≤ midpoint 3 8 ∧ midpoint 3 8 ≤ 8 ∧
    (Run.mk [5] (Outcome.ret 5)).reads.head? = some (3 + (8 - 3) / 2) :=
  midpoint_safe [0, 1, 2, 3, 4, 5, 6, 7, 8] 5 3 8 0 ⟨[5], Outcome.ret 5⟩
    (by decide) (by decide) (by decide)

/-! ## The dataset and the kernels in general -/

/-- C15: the dataset built by either driver is strictly increasing
(`a[i] < a[j]` for `i < j < N`), every element is even, non-negative and at
most `2 * (N - 1) = 198`, the first element is 0 and the last is 198. -/
theorem dataset_invariants (env : Env) (i j : Nat) (hij : i < j) (hj : j < SIZE) :
    (∃ x y, (buildDataset env).1[i]? = some x ∧ (buildDataset env).1[j]? = some y ∧ x < y) ∧
    (∀ x ∈ (buildDataset env).1, x % 2 = 0 ∧ 0 ≤ x ∧ x ≤ 198) ∧
    2 * ((SIZE : Int) - 1) = 198 ∧
    (buildDataset env).1[0]? = some 0 ∧ (buildDataset env).1[SIZE - 1]? = some 198 := by
  rw [buildDataset_fst]
  refine ⟨⟨_, _, referenceData_getElem? i (by omega), referenceData_getElem? j hj, by omega⟩,
    ?_, by decide, by decide, by decide⟩
  intro x hx
  obtain ⟨k, hk, rfl⟩ := referenceData_mem x hx
  omega

/-- Witness of C15 at positions 3 and 7. -/
theorem dataset_invariants_witness :
    (∃ x y, (buildDataset zeroEnv).1[3]? = some x ∧ (buildDataset zeroEnv).1[7]? = some y ∧
      x < y) ∧
    (∀ x ∈ (buildDataset zeroEnv).1, x % 2 = 0 ∧ 0 ≤ x ∧ x ≤ 198) ∧
    2 * ((SIZE : Int) - 1) = 198 ∧
    (buildDataset zeroEnv).1[0]? = some 0 ∧ (buildDataset zeroEnv).1[SIZE - 1]? = some 198 :=
  dataset_invariants zeroEnv 3 7 (by decide) (by decide)

/-- C17: for `low <= high < len(seq) < 2 ^ 63` with `low >= 1` or
`key >= seq[0]`, sorted or not, the call returns within `high - low + 2`
iterations, every index read lies in `[low, high]`, and at every loop test
`low` has not dropped, `high` has not risen and `high >= low - 1`: no
wrap-around. -/
theorem binarySearch_window_confined (b : List Int) (key : Int) (low high fuel : Nat)
    (hlen : b.length < 2 ^ 63) (hlh : low ≤ high) (hh : high < b.length)
    (hno : 1 ≤ low ∨ ∃ v0, b[0]? = some v0 ∧ v0 ≤ key) (hfuel : high + 1 - low < fuel) :
    ∃ r, binarySearch b key low high fuel = some r ∧ (∃ v, r.out = Outcome.ret v) ∧
      (∀ i ∈ r.reads, low ≤ i ∧ i ≤ high) ∧
      r.reads = ((binarySearchWindows b key fuel low high).filter
        (fun w => decide (w.1 ≤ w.2))).map (fun w => midpoint w.1 w.2) ∧
      ∀ w ∈ binarySearchWindows b key fuel low high,
        low ≤ w.1 ∧ w.1 ≤ w.2 + 1 ∧ w.2 ≤ high := by
  obtain ⟨r, hr, hP⟩ := binarySearchLoop_confined b key low high hlen hh fuel
    low high (le_refl _) (le_refl _) hfuel
  refine ⟨r, hr, ?_, ?_, binarySearchLoop_reads_eq b key fuel low high r hr,
    binarySearchWindows_confined b key low high hlen hh hno fuel low high
      (le_refl _) (le_refl _) (by omega)⟩
  · rcases hP with ⟨_, hout | ⟨w, _, _, _, hout⟩⟩ | ⟨h0, ⟨v0, hv0, hlt⟩, _⟩
    · exact ⟨_, hout⟩
    · exact ⟨_, hout⟩
    · rcases hno with h1 | ⟨v1, hv1, hle⟩
      · omega
      · rw [hv0] at hv1
        cases hv1
        omega
  · rcases hP with ⟨hreads, _⟩ | ⟨h0, ⟨v0, hv0, hlt⟩, _⟩
    · exact hreads
    · rcases hno with h1 | ⟨v1, hv1, hle⟩
      · omega
      · rw [hv0] at hv1
        cases hv1
        omega

/-- Witness of C17: `[9, 4, 7]`, unsorted, key 1 in the window `[1, 2]`. -/
theorem binarySearch_window_confined_witness :
    ∃ r, binarySearch [9, 4, 7] 1 1 2 3 = some r ∧ (∃ v, r.out = Outcome.ret v) ∧
      (∀ i ∈ r.reads, 1 ≤ i ∧ i ≤ 2) ∧
      r.reads = ((binarySearchWindows [9, 4, 7] 1 3 1 2).filter
        (fun w => decide (w.1 ≤ w.2))).map (fun w => midpoint w.1 w.2) ∧
      ∀ w ∈ binarySearchWindows [9, 4, 7] 1 3 1 2, 1 ≤ w.1 ∧ w.1 ≤ w.2 + 1 ∧ w.2 ≤ 2 :=
  binarySearch_window_confined [9, 4, 7] 1 1 2 3 (by decide) (by decide) (by decide)
    (Or.inl (by decide)) (by decide)

/-- C18: on a non-empty non-decreasing sequence of length below `2 ^ 63` and a
key not below the first element, `binarySearch(s, k, 0, len(s) - 1)` returns
within `len(s) + 1` iterations: an index holding `k` if `k` occurs in `s`, the
absent marker otherwise. -/
theorem binarySearch_correct_from_first (s : List Int) (k : Int) (fuel : Nat)
    (hs : s.Pairwise (fun x y => x ≤ y)) (hlen : s.length < 2 ^ 63)
    (hk : ∃ v0, s[0]? = some v0 ∧ v0 ≤ k) (hfuel : s.length < fuel) :
    ∃ r, binarySearch s k 0 (lastIndex s) fuel = some r ∧
      (k ∈ s → ∃ i, r.out = Outcome.ret i ∧ s[i]? = some k) ∧
      (k ∉ s → r.out = Outcome.ret NOT_FOUND) := by
  have hpos : 0 < s.length := by
    obtain ⟨v0, hv0, _⟩ := hk
    exact (List.getElem?_eq_some.1 hv0).1
  rw [lastIndex_of_pos s hpos hlen]
  obtain ⟨r, hr, hP⟩ := binarySearchLoop_sorted s k hs hlen hk fuel 0 (s.length - 1)
    (by omega) (by omega) (fun i x hi _ => absurd hi (Nat.not_lt_zero _))
    (fun i x hi hx => by
      have := (List.getElem?_eq_some.1 hx).1
      omega)
  refine ⟨r, hr, ?_, ?_⟩
  · intro hmem
    rcases hP with h | ⟨_, hnot⟩
    · exact h
    · exact absurd hmem hnot
  · intro hnot
    rcases hP with ⟨v, _, hv⟩ | ⟨hout, _⟩
    · exact absurd (List.getElem?_mem hv) hnot
    · exact hout

/-- Witness of C18: `[2, 4, 6]` with key 4. -/
theorem binarySearch_correct_from_first_witness :
    ∃ r, binarySearch [2, 4, 6] 4 0 (lastIndex [2, 4, 6]) 4 = some r ∧
      ((4 : Int) ∈ ([2, 4, 6] : List Int) →
        ∃ i, r.out = Outcome.ret i ∧ ([2, 4, 6] : List Int)[i]? = some 4) ∧
      ((4 : Int) ∉ ([2, 4, 6] : List Int) → r.out = Outcome.ret NOT_FOUND) :=
  binarySearch_correct_from_first [2, 4, 6] 4 4 (by decide) (by decide)
    ⟨2, by decide, by decide⟩ (by decide)

/-- C19: the call `binarySearch(a, key, 0, 100)` made by the binary driver
returns or stops within 8 iterations; it reads an index outside `[0, 100)`
exactly when `key < 0` or `key > 198`, and for a key in `[0, 198]` every read
is in bounds and the result is position `key / 2` for an even key and the
absent marker for an odd key. -/
theorem binary_driver_out_of_bounds_iff (env : Env) (key : Int) (fuel : Nat) :
    ∃ r, binarySearch (buildDataset env).1 key (toSizeT LOW) (toSizeT HIGH) (fuel + 8) = some r ∧
      ((∃ i ∈ r.reads, ¬ i < SIZE) ↔ (key < 0 ∨ 198 < key)) ∧
      (0 ≤ key → key ≤ 198 →
        (∀ i ∈ r.reads, i < SIZE) ∧
        (key % 2 = 0 → r.out = Outcome.ret (key / 2).toNat) ∧
        (key % 2 = 1 → r.out = Outcome.ret NOT_FOUND)) := by
  obtain ⟨h1, h2, h3⟩ := binary_reference_run key
  have hle : 8 ≤ fuel + 8 := Nat.le_add_left _ _
  have hlow : toSizeT LOW = 0 := by decide
  have hhigh : toSizeT HIGH = 100 := by decide
  rw [binarySearch, buildDataset_fst, hlow, hhigh]
  by_cases hk : key < 0
  · refine ⟨_, binarySearchLoop_fuel_mono _ _ 8 _ 0 100 _ hle (h1 hk), ?_, ?_⟩
    · constructor
      · intro _
        exact Or.inl hk
      · intro _
        exact ⟨2 ^ 63 - 1, by simp, by decide⟩
    · intro h0
      omega
  · by_cases hk2 : 198 < key
    · refine ⟨_, binarySearchLoop_fuel_mono _ _ 8 _ 0 100 _ hle (h2 hk2), ?_, ?_⟩
      · constructor
        · intro _
          exact Or.inr hk2
        · intro _
          exact ⟨100, by simp, by decide⟩
      · intro _ h198
        omega
    · obtain ⟨r, hr, hreads, hout⟩ := h3 (by omega) (by omega)
      refine ⟨r, binarySearchLoop_fuel_mono _ _ 8 _ 0 100 _ hle hr, ?_, ?_⟩
      · constructor
        · rintro ⟨i, hi, hni⟩
          exact absurd (hreads i hi) hni
        · intro h
          omega
      · intro _ _
        refine ⟨hreads, ?_, ?_⟩
        · intro hpar
          rw [hout, if_pos hpar]
        · intro hpar
          have hpar2 : ¬ key % 2 = 0 := by omega
          rw [hout, if_neg hpar2]

/-- C20: `linearSearch` does not use `size`: on every array of at least 100
elements, for every key and every two values of `size`, the results are equal,
and the call returns the smallest index below 100 holding the key, or the
absent marker after reading indices `0 .. 99` when there is none. -/
theorem linearSearch_ignores_size (array : List Int) (key : Int) (size size2 fuel : Nat)
    (hlen : SIZE ≤ array.length) (hfuel : SIZE < fuel) :
    linearSearch array key size fuel = linearSearch array key size2 fuel ∧
    ∃ r, linearSearch array key size fuel = some r ∧
      ((∃ i, i < SIZE ∧ array[i]? = some key ∧ (∀ j, j < i → array[j]? ≠ some key) ∧
          r.out = Outcome.ret i) ∨
        ((∀ j, j < SIZE → array[j]? ≠ some key) ∧ r.out = Outcome.ret NOT_FOUND ∧
          r.reads = List.range SIZE)) := by
  refine ⟨rfl, ?_⟩
  obtain ⟨r, hr, hP⟩ := linearSearchLoop_scan array key hlen SIZE 0 fuel (by omega) hfuel
  refine ⟨r, hr, ?_⟩
  rcases hP with ⟨i, _, hi, hget, hmin, hout, _⟩ | ⟨hnone, hout, hreads⟩
  · exact Or.inl ⟨i, hi, hget, fun j hj => hmin j (Nat.zero_le _) hj, hout⟩
  · refine Or.inr ⟨fun j hj => hnone j (Nat.zero_le _) hj, hout, ?_⟩
    rw [hreads, List.range_eq_range']

/-- Witness of C20: the 101 element sequence `0 .. 100`, key 100, with `size`
101 and 0. -/
theorem linearSearch_ignores_size_witness :
    linearSearch countingData 100 101 101 = linearSearch countingData 100 0 101 ∧
    ∃ r, linearSearch countingData 100 101 101 = some r ∧
      ((∃ i, i < SIZE ∧ countingData[i]? = some 100 ∧
          (∀ j, j < i → countingData[j]? ≠ some 100) ∧ r.out = Outcome.ret i) ∨
        ((∀ j, j < SIZE → countingData[j]? ≠ some 100) ∧ r.out = Outcome.ret NOT_FOUND ∧
          r.reads = List.range SIZE)) :=
  linearSearch_ignores_size countingData 100 101 0 101 (by decide) (by decide)

/-! ## The loop without bounds checks -/

theorem loadWord_noMemory (b : List Int) (i : Nat) : loadWord noMemory b i = b[i]? := by
  unfold loadWord noMemory
  cases b[i]? <;> rfl

theorem loadWord_of_some (mem : Nat → Option Int) (b : List Int) (i : Nat) (v : Int)
    (h : b[i]? = some v) : loadWord mem b i = some v := by
  unfold loadWord
  rw [h]

/-- With memory that traps everywhere the unchecked loop is `binarySearchLoop`. -/
theorem binarySearchMem_noMemory (b : List Int) (key : Int) :
    ∀ (fuel lo hi : Nat),
      binarySearchMem noMemory b key fuel lo hi = binarySearchLoop b key fuel lo hi := by
  intro fuel
  induction fuel with
  | zero => intro lo hi; rfl
  | succ f ih =>
    intro lo hi
    rw [binarySearchMem, binarySearchLoop, loadWord_noMemory]
    simp only [ih, midpoint]

/-- A run of `binarySearchLoop` that returns made no stray read, so the
unchecked loop makes the same run whatever the memory around the array. -/
theorem binarySearchMem_of_ret (mem : Nat → Option Int) (b : List Int) (key : Int) :
    ∀ (fuel lo hi : Nat) (r : Run) (v : Nat), binarySearchLoop b key fuel lo hi = some r →
      r.out = Outcome.ret v → binarySearchMem mem b key fuel lo hi = some r := by
  intro fuel
  induction fuel with
  | zero => intro lo hi r v h; simp [binarySearchLoop] at h
  | succ f ih =>
    intro lo hi r v h hout
    rw [binarySearchMem]
    by_cases hle : lo ≤ hi
    · rw [if_pos hle]
      cases hm : b[midpoint lo hi]? with
      | none =>
        rw [binarySearchLoop_fault b key f lo hi hle hm] at h
        cases h
        cases hout
      | some x =>
        rw [loadWord_of_some mem b _ x hm]
        rcases lt_trichotomy key x with hlt | heq | hgt
        · rw [binarySearchLoop_left b key x f lo hi hle hm hlt] at h
          rcases Option.map_eq_some'.1 h with ⟨r0, hr0, hr⟩
          subst hr
          have hne : ¬ key = x := by omega
          simp only [if_neg hne, if_pos hlt]
          rw [ih _ _ r0 v hr0 hout]
          rfl
        · subst heq
          rw [binarySearchLoop_hit b key f lo hi hle hm] at h
          cases h
          simp
        · rw [binarySearchLoop_right b key x f lo hi hle hm hgt] at h
          rcases Option.map_eq_some'.1 h with ⟨r0, hr0, hr⟩
          subst hr
          have hne : ¬ key = x := by omega
          have hnl : ¬ key < x := by omega
          simp only [if_neg hne, if_neg hnl]
          rw [ih _ _ r0 v hr0 hout]
          rfl
    · rw [binarySearchLoop_exit b key f lo hi hle] at h
      rw [if_neg hle]
      exact h

theorem mainBinaryMem_eq (mem : Nat → Option Int) (env : Env) (input : Option Int)
    (fuel : Nat) :
    mainBinaryMem mem env input fuel =
      ((binarySearchMem mem referenceData (scanKey env input) fuel 0 100).map Run.out).map
        (finish (header env)) := by
  rw [mainBinaryMem, buildDataset_fst, Option.map_map]
  rfl

theorem reference_below_returns :
    binarySearchMem (wordBefore (-1)) referenceData (-1) 8 0 100
      = some ⟨[50, 24, 11, 5, 2, 0, 2 ^ 63 - 1], Outcome.ret (2 ^ 63 - 1)⟩ := by
  decide

theorem report_wrapped :
    report (2 ^ 63 - 1) = "Found value at index 9223372036854775807\n" := by
  decide

/-- C12: the driver's test `index != -1` does not separate positions from the
marker on every run. With key `-1` the binary kernel underflows `high`, reads
the word just before the array and, when that word is `-1`, returns
`2 ^ 63 - 1`: not a position below `SIZE` and not the absent marker, and the
driver prints `Found value at index 9223372036854775807` with status 0. -/
theorem found_branch_outside_positions (env : Env) :
    (binarySearchMem (wordBefore (-1)) (buildDataset env).1 (-1) 8 (toSizeT LOW)
      (toSizeT HIGH)).map Run.out = some (Outcome.ret (2 ^ 63 - 1)) ∧
    mainBinaryMem (wordBefore (-1)) env (some (-1)) 8
      = some ⟨header env ++ "Found value at index 9223372036854775807\n", "",
          Exit.status 0⟩ ∧
    ¬ (2 ^ 63 - 1 < SIZE) ∧ 2 ^ 63 - 1 ≠ NOT_FOUND ∧
    (buildDataset env).1[2 ^ 63 - 1]? = none ∧
    mainBinary env (some (-1)) 8 = some ⟨header env, "", Exit.undefined (2 ^ 63 - 1)⟩ := by
  have hlow : toSizeT LOW = 0 := by decide
  have hhigh : toSizeT HIGH = 100 := by decide
  refine ⟨?_, ?_, by decide, by decide, ?_, ?_⟩
  · rw [buildDataset_fst, hlow, hhigh, reference_below_returns]
    rfl
  · rw [mainBinaryMem_eq, scanKey, reference_below_returns]
    show some (finish (header env) (Outcome.ret (2 ^ 63 - 1))) = _
    rw [finish, report_wrapped]
  · rw [buildDataset_fst]
    exact List.getElem?_eq_none (by rw [referenceData_length]; decide)
  · rw [mainBinary_eq, scanKey, binary_reference_below]
    rfl

/-- C16: a returned value other than the absent marker need not lie in
`[low, high]`. On `[2, 4, 6]` with key 0 and the window `[0, 2]` the loop reads
indices 1 and 0, `high = middle - 1` wraps, the next read is the word just
before the array, and when that word is 0 the call returns `2 ^ 63 - 1`, which
is above `high` and not an index of the array. -/
theorem binarySearch_returns_outside_window :
    (0 : Nat) ≤ 2 ∧ 2 < ([2, 4, 6] : List Int).length ∧
    ([2, 4, 6] : List Int).length < 2 ^ 63 ∧
    binarySearchMem (wordBefore 0) [2, 4, 6] 0 3 0 2
      = some ⟨[1, 0, 2 ^ 63 - 1], Outcome.ret (2 ^ 63 - 1)⟩ ∧
    2 ^ 63 - 1 ≠ NOT_FOUND ∧ ¬ (2 ^ 63 - 1 ≤ 2) ∧
    ([2, 4, 6] : List Int)[2 ^ 63 - 1]? = none ∧
    binarySearch [2, 4, 6] 0 0 2 3
      = some ⟨[1, 0, 2 ^ 63 - 1], Outcome.fault (2 ^ 63 - 1)⟩ := by
  decide

end KelasAlpro
